/-
A verification development for the bounded streaming extraction pipeline in
scripts/fetch-wikipedia.py.

The Python script is shallowly embedded: the record source is a finite list
of items pulled one at a time; the output directory is a list of filenames;
Python floats entering arithmetic are modelled as rationals; Python integers
as naturals; fallible paths return an error value instead of raising.
Each definition mirrors the source function of the same name.
-/
import Mathlib

set_option maxRecDepth 4000

namespace WikiFetch

/-- Model of Python str.strip() with no argument: removes leading and
trailing whitespace characters.  (Python strips all Unicode whitespace;
the ASCII whitespace set used here is the fragment relevant to this
development, and no claim depends on the exact whitespace alphabet.) -/
def isPyWs (c : Char) : Bool :=
  c = ' ' || c = '\t' || c = '\n' || c = '\r' || c = '\x0b' || c = '\x0c'

/-- Python str.strip(): drop whitespace from both ends. -/
def pyStrip (s : String) : String :=
  String.mk (((s.data.dropWhile isPyWs).reverse.dropWhile isPyWs).reverse)

/-- estimate_size (fetch-wikipedia.py line 27): len(text.encode('utf-8')). -/
def estimate_size (text : String) : Nat :=
  text.utf8ByteSize

/-- The list of filesystem-unsafe characters from clean_article_title
(fetch-wikipedia.py line 35). -/
def unsafe_chars : List Char := ['/', '\\', ':', '*', '?', '"', '<', '>', '|']

/-- One pass of cleaned.replace(char, '_') for a single-character pattern:
Python str.replace with a one-character pattern substitutes every
occurrence of that character, position by position. -/
def replacePass (l : List Char) (c : Char) : List Char :=
  l.map (fun d => if d = c then '_' else d)

/-- clean_article_title (fetch-wikipedia.py lines 32-39): sequentially
replace each unsafe character by an underscore. -/
def clean_article_title (title : String) : String :=
  String.mk (unsafe_chars.foldl (fun l c => replacePass l c) title.data)

/-- Decimal digits of a natural number, least significant first, with a
structural fuel argument (fuel ≥ n suffices). -/
def toDigitsAux : Nat → Nat → List Nat
  | _, 0 => []
  | 0, _ + 1 => []
  | fuel + 1, n + 1 => (n + 1) % 10 :: toDigitsAux fuel ((n + 1) / 10)

/-- Decimal digit as a character. -/
def digitCh (d : Nat) : Char := Char.ofNat (48 + d)

/-- Decimal rendering of a natural number as in a Python f-string
(natRepr 0 is unused: the collision counter starts at 1). -/
def natRepr (n : Nat) : String :=
  String.mk (((toDigitsAux n n).map digitCh).reverse)

/-- Candidate filename with a collision suffix, as in
f-string safe_title_counter.json (fetch-wikipedia.py line 166). -/
def suffixName (base : String) (k : Nat) : String :=
  base ++ "_" ++ natRepr k ++ ".json"

/-- The probe loop of fetch-wikipedia.py lines 164-168: starting from
counter k, return the first counter whose suffixed name is not in the
directory.  The Python loop is unbounded; the fuel argument is only a
structural-termination device and never runs out when the fuel exceeds the
number of files (proved below), so the value agrees with the Python loop. -/
def probeAux (files : List String) (base : String) : Nat → Nat → Option Nat
  | 0, _ => none
  | fuel + 1, k =>
    if suffixName base k ∈ files then probeAux files base fuel (k + 1) else some k

/-- The filename-selection logic of fetch-wikipedia.py lines 158-168:
candidate safe_title.json; while it exists in the directory, try
safe_title_1.json, safe_title_2.json, ... -/
def chooseFilename (files : List String) (base : String) : String :=
  if base ++ ".json" ∈ files then
    match probeAux files base (files.length + 1) 1 with
    | some k => suffixName base k
    | none => base ++ ".json"
  else
    base ++ ".json"

/-- A raw record from the streaming dataset.  The script reads
article['title'] and article['text']; 'text', 'url' and 'id' are accessed
with .get and so are modelled as optional. -/
structure Article where
  id : Option String
  url : Option String
  title : String
  text : Option String
deriving DecidableEq

/-- Metadata block of the normalized output document. -/
structure Meta where
  categories : List String
  url : String
  id : String
deriving DecidableEq

/-- The normalized output document (title, content, metadata). -/
structure Doc where
  title : String
  content : String
  metadata : Meta
deriving DecidableEq

/-- convert_to_rag_format (fetch-wikipedia.py lines 42-73).  Accessing
article['text'] on a record without text would raise (none); the pipeline
only calls it after the filter has established text is present. -/
def convert_to_rag_format (a : Article) : Option Doc :=
  match a.text with
  | none => none
  | some t =>
    some { title := a.title
           content := t
           metadata := { categories := []
                         url := a.url.getD ""
                         id := a.id.getD "" } }

/-- Run configuration: the arguments of fetch_wikipedia_dataset.
size_mb is a Python float (modelled as a rational), article_count a
Python int (the CLI produces a count, modelled as a natural). -/
structure Config where
  size_mb : Option ℚ
  article_count : Option Nat
  language : String
  output_dir : String
deriving DecidableEq

/-- Python truthiness of an optional float: None and 0.0 are falsy. -/
def truthyQ : Option ℚ → Bool
  | none => false
  | some q => decide (q ≠ 0)

/-- Python truthiness of an optional int: None and 0 are falsy. -/
def truthyN : Option Nat → Bool
  | none => false
  | some n => decide (n ≠ 0)

/-- Mutable run state: the statistics accumulators of
fetch-wikipedia.py lines 124-126 plus the output-directory contents and
the trace of written documents (pulls counts how many records the source
was asked to produce). -/
structure St where
  files : List String
  written : List (String × Doc)
  total_size_bytes : Nat
  articles_saved : Nat
  articles_skipped : Nat
  pulls : Nat
deriving DecidableEq

/-- Errors a run can surface: the two ValueErrors of lines 97-101, the
division failures of the progress report (lines 183-186), an (unreachable)
KeyError, and KeyboardInterrupt. -/
inductive RunErr where
  | valueErrNeither
  | valueErrBoth
  | keyError
  | typeErr
  | zeroDivErr
  | interrupted
deriving DecidableEq

/-- One pull from the streaming source: either a record, or a
KeyboardInterrupt arriving at that point of the iteration. -/
inductive Item where
  | record (a : Article)
  | interrupt
deriving DecidableEq

/-- target_size_bytes (line 127): size_mb * 1024 * 1024 if size_mb else None. -/
def targetSizeBytes (cfg : Config) : Option ℚ :=
  match cfg.size_mb with
  | some q => if q ≠ 0 then some (q * 1024 * 1024) else none
  | none => none

/-- The two break checks at the top of the loop body (lines 140-143):
size_mb and total_size_bytes >= target_size_bytes, or
article_count and articles_saved >= article_count. -/
def stopCond (cfg : Config) (s : St) : Bool :=
  (match cfg.size_mb with
   | some q => decide (q ≠ 0) && decide ((s.total_size_bytes : ℚ) ≥ q * 1024 * 1024)
   | none => false)
  ||
  (match cfg.article_count with
   | some n => decide (n ≠ 0) && decide (s.articles_saved ≥ n)
   | none => false)

/-- The fallible part of the progress report (lines 180-187), executed
after every 10th save: in size mode the percentage divides by a nonzero
target; otherwise it computes articles_saved / article_count, which
raises TypeError when article_count is None and ZeroDivisionError when
article_count == 0. -/
def progressCalc (cfg : Config) : Option RunErr :=
  if truthyQ cfg.size_mb then none
  else
    match cfg.article_count with
    | none => some RunErr.typeErr
    | some 0 => some RunErr.zeroDivErr
    | some (_ + 1) => none

/-- State update for a skipped article (lines 147 and 152). -/
def skipSt (s : St) : St :=
  { s with articles_skipped := s.articles_skipped + 1 }

/-- State update for a saved article (lines 158-177): choose a fresh
filename, write the document, add the byte size of the text to the
accumulator, increment the saved counter. -/
def saveSt (s : St) (a : Article) (doc : Doc) (t : String) : St :=
  let name := chooseFilename s.files (clean_article_title a.title)
  { s with files := s.files ++ [name]
           written := s.written ++ [(name, doc)]
           total_size_bytes := s.total_size_bytes + estimate_size t
           articles_saved := s.articles_saved + 1 }

/-- The body of the streaming loop for one pulled record, after the break
checks have passed (fetch-wikipedia.py lines 145-187): the two skip
filters, the conversion, the collision-safe write, the statistics update
and the progress report. -/
def handleRecord (cfg : Config) (s : St) (a : Article) : St × Option RunErr :=
  match a.text with
  | none => (skipSt s, none)
  | some t =>
    if t.isEmpty || decide ((pyStrip t).length < 100) then (skipSt s, none)
    else if decide (t.length < 500) then (skipSt s, none)
    else
      match convert_to_rag_format a with
      | none => (s, some RunErr.keyError)
      | some doc =>
        let s' := saveSt s a doc t
        (s', if s'.articles_saved % 10 == 0 then progressCalc cfg else none)

/-- The streaming loop (for article in dataset, lines 138-187).  The for
statement pulls the next record first; the break checks run afterwards, at
the top of the body.  A KeyboardInterrupt propagates out of the loop. -/
def loop (cfg : Config) : List Item → St → St × Option RunErr
  | [], s => (s, none)
  | i :: rest, s =>
    let s1 : St := { s with pulls := s.pulls + 1 }
    match i with
    | Item.interrupt => (s1, some RunErr.interrupted)
    | Item.record a =>
      if stopCond cfg s1 then (s1, none)
      else
        match handleRecord cfg s1 a with
        | (s2, some e) => (s2, some e)
        | (s2, none) => loop cfg rest s2

/-- The final statistics dictionary (fetch-wikipedia.py lines 190-200). -/
structure Stats where
  articles_saved : Nat
  articles_skipped : Nat
  total_size_mb : ℚ
  average_article_size_kb : ℚ
  output_directory : String
  language : String
deriving DecidableEq

/-- Lines 190-200: final_size_mb and the guarded average. -/
def mkStats (cfg : Config) (s : St) : Stats :=
  { articles_saved := s.articles_saved
    articles_skipped := s.articles_skipped
    total_size_mb := (s.total_size_bytes : ℚ) / (1024 * 1024)
    average_article_size_kb :=
      if s.articles_saved > 0 then
        (s.total_size_bytes : ℚ) / (s.articles_saved : ℚ) / 1024
      else 0
    output_directory := cfg.output_dir
    language := cfg.language }

/-- Result of a call to fetch_wikipedia_dataset: whether the output
directory was created, the final state, the propagated error if any, and
the returned statistics on normal return. -/
structure FetchRes where
  mkdirDone : Bool
  st : St
  err : Option RunErr
  stats : Option Stats
deriving DecidableEq

/-- Initial run state: the output directory may already hold files from
prior runs; every counter starts at zero (lines 124-126). -/
def initSt (pre : List String) : St :=
  { files := pre, written := [], total_size_bytes := 0
    articles_saved := 0, articles_skipped := 0, pulls := 0 }

/-- fetch_wikipedia_dataset (lines 76-210): argument validation, directory
creation, the streaming loop, and the statistics.  On a validation error
the function raises before mkdir and before the first pull. -/
def fetch_wikipedia_dataset (cfg : Config) (pre : List String) (src : List Item) :
    FetchRes :=
  if cfg.size_mb.isNone && cfg.article_count.isNone then
    { mkdirDone := false, st := initSt pre
      err := some RunErr.valueErrNeither, stats := none }
  else if cfg.size_mb.isSome && cfg.article_count.isSome then
    { mkdirDone := false, st := initSt pre
      err := some RunErr.valueErrBoth, stats := none }
  else
    match loop cfg src (initSt pre) with
    | (s, none) => { mkdirDone := true, st := s, err := none
                     stats := some (mkStats cfg s) }
    | (s, some e) => { mkdirDone := true, st := s, err := some e, stats := none }

/-- Result of running main (lines 213-298): exit code, whether the
_fetch_metadata.json summary was written, the statistics, and the final
directory contents. -/
structure MainOut where
  exitCode : Nat
  metadataWritten : Bool
  stats : Option Stats
  files : List String
deriving DecidableEq

/-- main (lines 274-298): on normal return of the fetch, write the
metadata summary file and exit 0; on KeyboardInterrupt or any other
exception, print and sys.exit(1) - no summary file is written and the
already-written documents remain on disk. -/
def main_run (cfg : Config) (pre : List String) (src : List Item) : MainOut :=
  let r := fetch_wikipedia_dataset cfg pre src
  match r.err with
  | some _ => { exitCode := 1, metadataWritten := false, stats := none
                files := r.st.files }
  | none => { exitCode := 0, metadataWritten := true, stats := r.stats
              files := r.st.files ++ ["_fetch_metadata.json"] }

/-! Auxiliary definitions for the verification (spec-side predicates and
concrete fixtures used by witnesses), followed by all theorems. -/

/-- Big-endian decimal decoding, a left inverse of natRepr. -/
def decodeDigits (s : String) : Nat :=
  s.data.foldl (fun acc c => acc * 10 + (c.toNat - 48)) 0

/-- The combined skip condition of fetch-wikipedia.py lines 146 and 151:
text absent or empty, trimmed length below 100, or raw length below 500. -/
def rejectB (a : Article) : Bool :=
  match a.text with
  | none => true
  | some t => t.isEmpty || decide ((pyStrip t).length < 100) || decide (t.length < 500)

/-- The document produced by convert_to_rag_format for a record whose
text is present. -/
def theDoc (a : Article) (t : String) : Doc :=
  { title := a.title
    content := t
    metadata := { categories := [], url := a.url.getD "", id := a.id.getD "" } }

/-- No KeyboardInterrupt arrives while the given items are pulled. -/
def noInterrupt (src : List Item) : Bool :=
  src.all (fun i => match i with | Item.record _ => true | Item.interrupt => false)

/-- An item the filter stage accepts. -/
def isAdmissible : Item → Bool
  | Item.record a => !(rejectB a)
  | Item.interrupt => false

/-- How many admissible records the source offers. -/
def countAdmissible (src : List Item) : Nat :=
  (src.filter isAdmissible).length

/-- The sizes the budget accumulator adds, one per written document:
the byte size of the content field. -/
def writtenSizes (w : List (String × Doc)) : List Nat :=
  w.map (fun p => estimate_size p.2.content)

/-- A 600-character body text, long enough to pass both filter thresholds. -/
def longText : String := String.mk (List.replicate 600 'a')

/-- A concrete admissible article fixture. -/
def mkArt (title : String) : Article :=
  { id := some "7", url := some "http", title := title, text := some longText }

/-- A concrete too-short article fixture (50 characters). -/
def shortArt : Article :=
  { id := some "8", url := some "http", title := "Short"
    text := some (String.mk (List.replicate 50 'b')) }

/-- A 300-character article: trimmed length 300 (at least 100) but
untrimmed length below 500, so the stub filter rejects it. -/
def midArt : Article :=
  { id := some "9", url := some "http", title := "Mid"
    text := some (String.mk (List.replicate 300 'c')) }

/-- Twelve admissible records, more than enough to cross the 10th save. -/
def src12 : List Item :=
  [Item.record (mkArt "T01"), Item.record (mkArt "T02"), Item.record (mkArt "T03"),
   Item.record (mkArt "T04"), Item.record (mkArt "T05"), Item.record (mkArt "T06"),
   Item.record (mkArt "T07"), Item.record (mkArt "T08"), Item.record (mkArt "T09"),
   Item.record (mkArt "T10"), Item.record (mkArt "T11"), Item.record (mkArt "T12")]

theorem toDigitsAux_lt_base : ∀ fuel n d, d ∈ toDigitsAux fuel n → d < 10 := by
  intro fuel
  induction fuel with
  | zero => intro n d hd; cases n <;> simp [toDigitsAux] at hd
  | succ fuel ih =>
    intro n d hd
    cases n with
    | zero => simp [toDigitsAux] at hd
    | succ m =>
      simp only [toDigitsAux, List.mem_cons] at hd
      rcases hd with h | h
      · omega
      · exact ih _ _ h

theorem foldr_toDigitsAux : ∀ fuel n, n ≤ fuel →
    List.foldr (fun d acc => acc * 10 + d) 0 (toDigitsAux fuel n) = n := by
  intro fuel
  induction fuel with
  | zero =>
    intro n hn
    interval_cases n
    simp [toDigitsAux]
  | succ fuel ih =>
    intro n hn
    cases n with
    | zero => simp [toDigitsAux]
    | succ m =>
      have hdiv : (m + 1) / 10 < m + 1 := Nat.div_lt_self (Nat.succ_pos m) (by omega)
      have hle : (m + 1) / 10 ≤ fuel := by omega
      simp only [toDigitsAux, List.foldr_cons, ih _ hle]
      omega

theorem digitCh_toNat (d : Nat) (hd : d < 10) : (digitCh d).toNat = 48 + d := by
  interval_cases d <;> decide

theorem foldr_decode_digits : ∀ l : List Nat, (∀ d ∈ l, d < 10) →
    List.foldr (fun c acc => acc * 10 + (Char.toNat c - 48)) 0 (l.map digitCh)
      = List.foldr (fun d acc => acc * 10 + d) 0 l := by
  intro l
  induction l with
  | nil => intro _; rfl
  | cons d l ih =>
    intro hall
    have hd : d < 10 := hall d (List.mem_cons_self d l)
    have hrest : ∀ x ∈ l, x < 10 := fun x hx => hall x (List.mem_cons_of_mem d hx)
    simp only [List.map_cons, List.foldr_cons, ih hrest, digitCh_toNat d hd]
    omega

theorem decodeDigits_natRepr (n : Nat) : decodeDigits (natRepr n) = n := by
  unfold decodeDigits natRepr
  rw [show (String.mk (((toDigitsAux n n).map digitCh).reverse)).data
        = ((toDigitsAux n n).map digitCh).reverse from rfl]
  rw [List.foldl_reverse]
  rw [foldr_decode_digits _ (fun d hd => toDigitsAux_lt_base n n d hd)]
  exact foldr_toDigitsAux n n le_rfl

theorem natRepr_injective : Function.Injective natRepr :=
  Function.LeftInverse.injective decodeDigits_natRepr

theorem suffixName_inj (base : String) (k1 k2 : Nat)
    (h : suffixName base k1 = suffixName base k2) : k1 = k2 := by
  apply natRepr_injective
  unfold suffixName at h
  have hd := congrArg String.data h
  simp only [String.data_append] at hd
  have h1 := List.append_cancel_right hd
  have h3 := List.append_cancel_left h1
  cases hk1 : natRepr k1 with
  | mk l1 =>
    cases hk2 : natRepr k2 with
    | mk l2 =>
      rw [hk1, hk2] at h3
      simp_all

/-! Properties of the collision-probe loop. -/

theorem probeAux_spec (files : List String) (base : String) :
    ∀ fuel k j, probeAux files base fuel k = some j →
      suffixName base j ∉ files ∧ k ≤ j ∧
        ∀ i, k ≤ i → i < j → suffixName base i ∈ files := by
  intro fuel
  induction fuel with
  | zero => intro k j h; simp [probeAux] at h
  | succ fuel ih =>
    intro k j h
    by_cases hk : suffixName base k ∈ files
    · rw [probeAux, if_pos hk] at h
      obtain ⟨hnot, hle, hmin⟩ := ih (k + 1) j h
      refine ⟨hnot, by omega, ?_⟩
      intro i hki hij
      rcases Nat.eq_or_lt_of_le hki with heq | hlt
      · rwa [← heq]
      · exact hmin i hlt hij
    · rw [probeAux, if_neg hk] at h
      obtain rfl : k = j := by injection h
      exact ⟨hk, le_rfl, fun i h1 h2 => absurd (lt_of_le_of_lt h1 h2) (lt_irrefl k)⟩

theorem probeAux_isSome (files : List String) (base : String) :
    ∀ fuel k, (∃ j, k ≤ j ∧ j < k + fuel ∧ suffixName base j ∉ files) →
      ∃ j', probeAux files base fuel k = some j' := by
  intro fuel
  induction fuel with
  | zero => intro k ⟨j, h1, h2, _⟩; omega
  | succ fuel ih =>
    intro k ⟨j, h1, h2, h3⟩
    by_cases hk : suffixName base k ∈ files
    · rw [probeAux, if_pos hk]
      apply ih (k + 1)
      have hkj : k ≠ j := fun he => h3 (he ▸ hk)
      exact ⟨j, by omega, by omega, h3⟩
    · exact ⟨k, by rw [probeAux, if_neg hk]⟩

theorem probe_exists (files : List String) (base : String) :
    ∃ j, 1 ≤ j ∧ j ≤ files.length + 1 ∧ suffixName base j ∉ files := by
  by_contra hall
  push_neg at hall
  have hmaps : ∀ j ∈ Finset.Icc 1 (files.length + 1),
      suffixName base j ∈ files.toFinset := by
    intro j hj
    rw [Finset.mem_Icc] at hj
    rw [List.mem_toFinset]
    exact hall j hj.1 hj.2
  have hinj : Set.InjOn (suffixName base) (Finset.Icc 1 (files.length + 1)) :=
    fun a _ b _ hab => suffixName_inj base a b hab
  have hcard := Finset.card_le_card_of_injOn (suffixName base) hmaps hinj
  rw [Nat.card_Icc] at hcard
  have hfl := files.toFinset_card_le
  omega

theorem chooseFilename_spec (files : List String) (base : String) :
    chooseFilename files base ∉ files ∧
    (base ++ ".json" ∉ files → chooseFilename files base = base ++ ".json") ∧
    (base ++ ".json" ∈ files →
      ∃ k, 1 ≤ k ∧ chooseFilename files base = suffixName base k ∧
        suffixName base k ∉ files ∧
        ∀ j, 1 ≤ j → j < k → suffixName base j ∈ files) := by
  by_cases hmem : base ++ ".json" ∈ files
  · obtain ⟨j, hj1, hj2, hj3⟩ := probe_exists files base
    obtain ⟨j', hj'⟩ := probeAux_isSome files base (files.length + 1) 1
      ⟨j, hj1, by omega, hj3⟩
    obtain ⟨hnot, hle, hmin⟩ := probeAux_spec files base (files.length + 1) 1 j' hj'
    have hch : chooseFilename files base = suffixName base j' := by
      rw [chooseFilename, if_pos hmem, hj']
    refine ⟨?_, fun h => absurd hmem h, fun _ => ⟨j', hle, hch, hnot, hmin⟩⟩
    rw [hch]; exact hnot
  · have hch : chooseFilename files base = base ++ ".json" := by
      rw [chooseFilename, if_neg hmem]
    exact ⟨hch ▸ hmem, fun _ => hch, fun h => absurd h hmem⟩

/-! The cleaning pass is the simultaneous character substitution. -/

theorem foldl_replacePass (cs : List Char) :
    ∀ l : List Char, cs.foldl (fun l c => replacePass l c) l
      = l.map (fun d => if d ∈ cs then '_' else d) := by
  induction cs with
  | nil =>
    intro l
    simp [List.foldl_nil]
  | cons c cs ih =>
    intro l
    rw [List.foldl_cons, ih (replacePass l c)]
    unfold replacePass
    rw [List.map_map]
    apply List.map_congr_left
    intro d _
    by_cases hdc : d = c
    · subst hdc
      by_cases hu : '_' ∈ cs <;> simp [hu]
    · by_cases hdcs : d ∈ cs <;> simp [hdc, hdcs]

theorem clean_article_title_map (title : String) :
    (clean_article_title title).data
      = title.data.map (fun c => if c ∈ unsafe_chars then '_' else c) := by
  show (unsafe_chars.foldl (fun l c => replacePass l c) title.data)
      = title.data.map (fun c => if c ∈ unsafe_chars then '_' else c)
  exact foldl_replacePass unsafe_chars title.data

/-! Characterization of the filter stage. -/

theorem convert_eq (a : Article) (t : String) (ht : a.text = some t) :
    convert_to_rag_format a = some (theDoc a t) := by
  unfold convert_to_rag_format theDoc
  rw [ht]

theorem saveSt_articles_saved (s : St) (a : Article) (doc : Doc) (t : String) :
    (saveSt s a doc t).articles_saved = s.articles_saved + 1 := rfl

theorem handleRecord_reject (cfg : Config) (s : St) (a : Article)
    (h : rejectB a = true) : handleRecord cfg s a = (skipSt s, none) := by
  unfold rejectB at h
  cases ht : a.text with
  | none => simp [handleRecord, ht]
  | some t =>
    rw [ht] at h
    simp only [Bool.or_eq_true] at h
    rcases h with (h | h) | h
    · simp [handleRecord, ht, h]
    · simp [handleRecord, ht, h]
    · simp [handleRecord, ht, h]

theorem handleRecord_accept (cfg : Config) (s : St) (a : Article)
    (h : rejectB a = false) :
    ∃ t, a.text = some t ∧
      handleRecord cfg s a = (saveSt s a (theDoc a t) t,
        if (s.articles_saved + 1) % 10 == 0 then progressCalc cfg else none) := by
  unfold rejectB at h
  cases ht : a.text with
  | none => rw [ht] at h; simp at h
  | some t =>
    rw [ht] at h
    simp only [Bool.or_eq_false_iff] at h
    obtain ⟨⟨h1, h2⟩, h3⟩ := h
    refine ⟨t, rfl, ?_⟩
    simp [handleRecord, ht, h1, h2, h3, convert_eq a t ht,
      saveSt_articles_saved]

/-! Unfolding equations for the streaming loop. -/

theorem loop_nil (cfg : Config) (s : St) : loop cfg [] s = (s, none) := rfl

theorem loop_cons_interrupt (cfg : Config) (rest : List Item) (s : St) :
    loop cfg (Item.interrupt :: rest) s
      = ({ s with pulls := s.pulls + 1 }, some RunErr.interrupted) := rfl

theorem loop_cons_stop (cfg : Config) (a : Article) (rest : List Item) (s : St)
    (h : stopCond cfg { s with pulls := s.pulls + 1 } = true) :
    loop cfg (Item.record a :: rest) s = ({ s with pulls := s.pulls + 1 }, none) := by
  simp [loop, h]

theorem loop_cons_go (cfg : Config) (a : Article) (rest : List Item) (s : St)
    (h : stopCond cfg { s with pulls := s.pulls + 1 } = false)
    (s2 : St) (hh : handleRecord cfg { s with pulls := s.pulls + 1 } a = (s2, none)) :
    loop cfg (Item.record a :: rest) s = loop cfg rest s2 := by
  simp [loop, h, hh]

theorem loop_cons_err (cfg : Config) (a : Article) (rest : List Item) (s : St)
    (h : stopCond cfg { s with pulls := s.pulls + 1 } = false)
    (s2 : St) (e : RunErr)
    (hh : handleRecord cfg { s with pulls := s.pulls + 1 } a = (s2, some e)) :
    loop cfg (Item.record a :: rest) s = (s2, some e) := by
  simp [loop, h, hh]

/-! Loop-level bookkeeping. -/

theorem stopCond_count (N : Nat) (cfg : Config) (hsz : cfg.size_mb = none)
    (hct : cfg.article_count = some N) (s : St) :
    stopCond cfg s = (decide (N ≠ 0) && decide (s.articles_saved ≥ N)) := by
  unfold stopCond
  rw [hsz, hct]
  simp

theorem progressCalc_count (cfg : Config) (N : Nat) (hN : 1 ≤ N)
    (hsz : cfg.size_mb = none) (hct : cfg.article_count = some N) :
    progressCalc cfg = none := by
  obtain ⟨m, rfl⟩ : ∃ m, N = m + 1 := ⟨N - 1, by omega⟩
  unfold progressCalc
  rw [hsz, hct]
  rfl

theorem loop_count_exact (N : Nat) (hN : 1 ≤ N) (cfg : Config)
    (hsz : cfg.size_mb = none) (hct : cfg.article_count = some N) :
    ∀ (items : List Item) (s : St), noInterrupt items = true →
      s.articles_saved ≤ N → N ≤ s.articles_saved + countAdmissible items →
      (loop cfg items s).2 = none ∧ (loop cfg items s).1.articles_saved = N := by
  intro items
  induction items with
  | nil =>
    intro s _ h1 h2
    have : countAdmissible [] = 0 := rfl
    refine ⟨rfl, ?_⟩
    show s.articles_saved = N
    omega
  | cons i rest ih =>
    intro s hni h1 h2
    cases i with
    | interrupt => simp [noInterrupt] at hni
    | record a =>
      have hnir : noInterrupt rest = true := by
        simp only [noInterrupt, List.all_cons, Bool.and_eq_true] at hni
        exact hni.2
      by_cases hsa : s.articles_saved ≥ N
      · have hstop : stopCond cfg { s with pulls := s.pulls + 1 } = true := by
          rw [stopCond_count N cfg hsz hct]
          simp only [Bool.and_eq_true, decide_eq_true_eq]
          exact ⟨by omega, hsa⟩
        rw [loop_cons_stop cfg a rest s hstop]
        exact ⟨rfl, by show s.articles_saved = N; omega⟩
      · have hstop : stopCond cfg { s with pulls := s.pulls + 1 } = false := by
          rw [stopCond_count N cfg hsz hct]
          simp only [Bool.and_eq_false_iff, decide_eq_false_iff_not]
          right
          omega
        by_cases hrj : rejectB a = true
        · have hcnt : countAdmissible (Item.record a :: rest) = countAdmissible rest := by
            unfold countAdmissible
            rw [List.filter_cons]
            simp [isAdmissible, hrj]
          rw [hcnt] at h2
          rw [loop_cons_go cfg a rest s hstop _
            (handleRecord_reject cfg _ a hrj)]
          exact ih (skipSt { s with pulls := s.pulls + 1 }) hnir h1 h2
        · rw [Bool.not_eq_true] at hrj
          obtain ⟨t, ht, hh⟩ := handleRecord_accept cfg { s with pulls := s.pulls + 1 } a hrj
          have hcnt : countAdmissible (Item.record a :: rest) = countAdmissible rest + 1 := by
            unfold countAdmissible
            rw [List.filter_cons]
            simp [isAdmissible, hrj]
          rw [hcnt] at h2
          have hpc : progressCalc cfg = none := progressCalc_count cfg N hN hsz hct
          rw [hpc, ite_self] at hh
          rw [loop_cons_go cfg a rest s hstop _ hh]
          have hsv := saveSt_articles_saved { s with pulls := s.pulls + 1 } a (theDoc a t) t
          apply ih
          · exact hnir
          · rw [hsv]
            show s.articles_saved + 1 ≤ N
            omega
          · rw [hsv]
            show N ≤ s.articles_saved + 1 + countAdmissible rest
            omega

theorem fetch_one_target (cfg : Config) (pre : List String) (src : List Item)
    (hok : (cfg.size_mb.isNone && cfg.article_count.isNone) = false)
    (hok2 : (cfg.size_mb.isSome && cfg.article_count.isSome) = false) :
    fetch_wikipedia_dataset cfg pre src
      = match loop cfg src (initSt pre) with
        | (s, none) => { mkdirDone := true, st := s, err := none
                         stats := some (mkStats cfg s) }
        | (s, some e) => { mkdirDone := true, st := s, err := some e
                           stats := none } := by
  unfold fetch_wikipedia_dataset
  rw [if_neg (by simp [hok]), if_neg (by simp [hok2])]

/-- Claim C2: for every run configured with a positive document-count
target N whose interrupt-free source offers at least N admissible records,
the run completes without error and writes exactly N documents. -/
theorem C2_count_budget_exactness (N : Nat) (lang out : String)
    (pre : List String) (src : List Item) (hN : 1 ≤ N)
    (hni : noInterrupt src = true) (hadm : N ≤ countAdmissible src) :
    (fetch_wikipedia_dataset ⟨none, some N, lang, out⟩ pre src).err = none ∧
    (fetch_wikipedia_dataset ⟨none, some N, lang, out⟩ pre src).st.articles_saved = N := by
  have hmain := loop_count_exact N hN ⟨none, some N, lang, out⟩ rfl rfl src (initSt pre)
    hni (by show (0 : Nat) ≤ N; omega) (by show N ≤ 0 + countAdmissible src; omega)
  rw [fetch_one_target ⟨none, some N, lang, out⟩ pre src (by rfl) (by rfl)]
  cases hlp : loop ⟨none, some N, lang, out⟩ src (initSt pre) with
  | mk s e =>
    rw [hlp] at hmain
    obtain ⟨he, hs⟩ := hmain
    simp only at he hs
    subst he
    exact ⟨rfl, hs⟩

/-- Witness for C2 at a concrete input: target 1, one admissible record. -/
theorem C2_count_budget_exactness_witness :
    (fetch_wikipedia_dataset ⟨none, some 1, "simple", "data"⟩ []
        [Item.record (mkArt "A")]).err = none ∧
    (fetch_wikipedia_dataset ⟨none, some 1, "simple", "data"⟩ []
        [Item.record (mkArt "A")]).st.articles_saved = 1 :=
  C2_count_budget_exactness 1 "simple" "data" [] [Item.record (mkArt "A")]
    (by decide) (by decide) (by decide)

theorem stopCond_pulls (cfg : Config) (s : St) (p : Nat) :
    stopCond cfg { s with pulls := p } = stopCond cfg s := rfl

/-- Claim C4 counterexample: with a count target of 1 and a source of two
admissible records, the budget is met as soon as the first record is
saved, yet the source is asked for a second record (two pulls occur): the
stop check runs after pulling, not before, so the claim as stated fails. -/
theorem C4_counterexample :
    (fetch_wikipedia_dataset ⟨none, some 1, "simple", "data"⟩ []
        [Item.record (mkArt "A"), Item.record (mkArt "B")]).st.articles_saved = 1 ∧
    (fetch_wikipedia_dataset ⟨none, some 1, "simple", "data"⟩ []
        [Item.record (mkArt "A"), Item.record (mkArt "B")]).st.pulls = 2 := by
  constructor <;> decide

/-- Claim C4 (amended): the stop check runs at the top of the loop body,
after the next record has been pulled but before it is processed: once the
budget is met, at most one further record is pulled, and no pulled record
is filtered, written or counted from that point on. -/
theorem C4_no_processing_after_stop (cfg : Config) (s : St)
    (h : stopCond cfg s = true) :
    ∀ items : List Item,
      (loop cfg items s).1.articles_saved = s.articles_saved ∧
      (loop cfg items s).1.articles_skipped = s.articles_skipped ∧
      (loop cfg items s).1.written = s.written ∧
      (loop cfg items s).1.files = s.files ∧
      (loop cfg items s).1.pulls ≤ s.pulls + 1 := by
  intro items
  cases items with
  | nil => exact ⟨rfl, rfl, rfl, rfl, Nat.le_succ s.pulls⟩
  | cons i rest =>
    cases i with
    | interrupt =>
      rw [loop_cons_interrupt]
      exact ⟨rfl, rfl, rfl, rfl, le_rfl⟩
    | record a =>
      have hstop : stopCond cfg { s with pulls := s.pulls + 1 } = true := by
        rw [stopCond_pulls]; exact h
      rw [loop_cons_stop cfg a rest s hstop]
      exact ⟨rfl, rfl, rfl, rfl, le_rfl⟩

/-- Witness for the amended C4: a state with the count budget already met. -/
theorem C4_no_processing_after_stop_witness :
    (loop ⟨none, some 1, "simple", "data"⟩ [Item.record (mkArt "B")]
        { files := ["A.json"], written := [], total_size_bytes := 600
          articles_saved := 1, articles_skipped := 0, pulls := 1 }).1.articles_saved = 1 ∧
    (loop ⟨none, some 1, "simple", "data"⟩ [Item.record (mkArt "B")]
        { files := ["A.json"], written := [], total_size_bytes := 600
          articles_saved := 1, articles_skipped := 0, pulls := 1 }).1.pulls ≤ 2 := by
  have h := C4_no_processing_after_stop ⟨none, some 1, "simple", "data"⟩
    { files := ["A.json"], written := [], total_size_bytes := 600
      articles_saved := 1, articles_skipped := 0, pulls := 1 }
    (by decide) [Item.record (mkArt "B")]
  exact ⟨h.1, h.2.2.2.2⟩

/-- Claim C7: constructing a run with both a size target and a count
target fails with the configuration ValueError, and constructing with
neither also fails; in both cases the failure is surfaced before any I/O:
the output directory is not created (mkdirDone is false) and no record is
pulled (the state is the initial state, whose pull counter is zero). -/
theorem C7_config_mutual_exclusion (q : ℚ) (n : Nat) (lang out : String)
    (pre : List String) (src : List Item) :
    fetch_wikipedia_dataset ⟨some q, some n, lang, out⟩ pre src
      = { mkdirDone := false, st := initSt pre
          err := some RunErr.valueErrBoth, stats := none } ∧
    fetch_wikipedia_dataset ⟨none, none, lang, out⟩ pre src
      = { mkdirDone := false, st := initSt pre
          err := some RunErr.valueErrNeither, stats := none } ∧
    (initSt pre).pulls = 0 ∧ (initSt pre).files = pre :=
  ⟨rfl, rfl, rfl, rfl⟩

theorem fetch_stats_eq (cfg : Config) (pre : List String) (src : List Item)
    (stt : Stats) (h : (fetch_wikipedia_dataset cfg pre src).stats = some stt) :
    stt = mkStats cfg (fetch_wikipedia_dataset cfg pre src).st := by
  unfold fetch_wikipedia_dataset at h ⊢
  by_cases h1 : (cfg.size_mb.isNone && cfg.article_count.isNone) = true
  · rw [if_pos h1] at h ⊢
    exact Option.noConfusion h
  · rw [if_neg h1] at h ⊢
    by_cases h2 : (cfg.size_mb.isSome && cfg.article_count.isSome) = true
    · rw [if_pos h2] at h ⊢
      exact Option.noConfusion h
    · rw [if_neg h2] at h ⊢
      cases hlp : loop cfg src (initSt pre) with
      | mk s e =>
        rw [hlp] at h
        cases e with
        | none => exact (Option.some_inj.mp h).symm
        | some e => exact Option.noConfusion h

/-- Claim C9: the average-size statistic is guarded: a run that returns
statistics with zero documents saved reports average 0 (the division is
never taken), and with at least one document saved it reports
total bytes / documents saved / 1024. -/
theorem C9_average_size_guard (cfg : Config) (pre : List String)
    (src : List Item) (stt : Stats)
    (h : (fetch_wikipedia_dataset cfg pre src).stats = some stt) :
    (stt.articles_saved = 0 → stt.average_article_size_kb = 0) ∧
    (0 < stt.articles_saved →
      stt.average_article_size_kb
        = ((fetch_wikipedia_dataset cfg pre src).st.total_size_bytes : ℚ)
            / (stt.articles_saved : ℚ) / 1024) := by
  have he := fetch_stats_eq cfg pre src stt h
  subst he
  unfold mkStats
  constructor
  · intro h0
    simp only at h0
    simp [h0]
  · intro h0
    simp only at h0
    simp [h0, Nat.pos_iff_ne_zero.mp h0]

/-- Witness for C9: an empty source saves zero documents and the average
statistic is zero. -/
theorem C9_average_size_guard_witness :
    (mkStats ⟨none, some 3, "simple", "data"⟩
        (fetch_wikipedia_dataset ⟨none, some 3, "simple", "data"⟩ [] []).st).average_article_size_kb
      = 0 :=
  (C9_average_size_guard ⟨none, some 3, "simple", "data"⟩ [] []
      (mkStats ⟨none, some 3, "simple", "data"⟩
        (fetch_wikipedia_dataset ⟨none, some 3, "simple", "data"⟩ [] []).st)
      (by rfl)).1 (by rfl)

/-- Claim C8 counterexample: a KeyboardInterrupt during streaming is not
finalized gracefully: the fetch surfaces it as an error, and main exits
with status 1 without computing statistics and without writing the
_fetch_metadata.json summary, contrary to the claim. -/
theorem C8_counterexample :
    (fetch_wikipedia_dataset ⟨none, some 5, "simple", "data"⟩ []
        [Item.record (mkArt "A"), Item.interrupt]).err = some RunErr.interrupted ∧
    (main_run ⟨none, some 5, "simple", "data"⟩ []
        [Item.record (mkArt "A"), Item.interrupt]).exitCode = 1 ∧
    (main_run ⟨none, some 5, "simple", "data"⟩ []
        [Item.record (mkArt "A"), Item.interrupt]).metadataWritten = false ∧
    (main_run ⟨none, some 5, "simple", "data"⟩ []
        [Item.record (mkArt "A"), Item.interrupt]).stats = none := by
  refine ⟨?_, ?_, ?_, ?_⟩ <;> decide

/-- Claim C8 (amended): a KeyboardInterrupt during streaming aborts the
run: the exception propagates out of the fetch, main exits with status 1,
no statistics are computed and no summary file is written; the documents
already written remain in the output directory (the file list is the
fetch state's file list, unchanged by main). -/
theorem C8_interrupt_aborts (cfg : Config) (pre : List String)
    (src : List Item)
    (h : (fetch_wikipedia_dataset cfg pre src).err = some RunErr.interrupted) :
    main_run cfg pre src
      = { exitCode := 1, metadataWritten := false, stats := none
          files := (fetch_wikipedia_dataset cfg pre src).st.files } := by
  simp only [main_run, h]

/-- Witness for the amended C8 at a concrete interrupted run. -/
theorem C8_interrupt_aborts_witness :
    main_run ⟨none, some 5, "simple", "data"⟩ []
        [Item.record (mkArt "A"), Item.interrupt]
      = { exitCode := 1, metadataWritten := false, stats := none
          files := (fetch_wikipedia_dataset ⟨none, some 5, "simple", "data"⟩ []
            [Item.record (mkArt "A"), Item.interrupt]).st.files } :=
  C8_interrupt_aborts ⟨none, some 5, "simple", "data"⟩ []
    [Item.record (mkArt "A"), Item.interrupt] (by decide)

theorem reject_iff (a : Article) :
    rejectB a = true ↔
      (a.text = none ∨ ∃ t, a.text = some t ∧
        ((pyStrip t).length < 100 ∨ t.length < 500)) := by
  cases ht : a.text with
  | none => simp [rejectB, ht]
  | some t =>
    simp only [rejectB, ht, Bool.or_eq_true, decide_eq_true_eq]
    constructor
    · rintro ((he | h1) | h2)
      · refine Or.inr ⟨t, rfl, Or.inl ?_⟩
        rw [(String.isEmpty_iff t).mp he]
        decide
      · exact Or.inr ⟨t, rfl, Or.inl h1⟩
      · exact Or.inr ⟨t, rfl, Or.inr h2⟩
    · rintro (hn | ⟨t', ht', h⟩)
      · exact Option.noConfusion hn
      · obtain rfl : t' = t := by injection ht'.symm
        rcases h with h | h
        · exact Or.inl (Or.inr h)
        · exact Or.inr h

/-- Claim C5: the pipeline rejects a raw record if and only if its body
text is absent, or its whitespace-trimmed length is below 100 characters,
or its untrimmed length is below 500 characters; a rejected record only
increments the skip counter (no file is written, no byte or save counter
changes); every other record is accepted: the save counter increments and
exactly one new file is written. -/
theorem C5_filter_contract (cfg : Config) (s : St) (a : Article) :
    (rejectB a = true ↔
      (a.text = none ∨ ∃ t, a.text = some t ∧
        ((pyStrip t).length < 100 ∨ t.length < 500))) ∧
    (rejectB a = true →
      handleRecord cfg s a
        = ({ s with articles_skipped := s.articles_skipped + 1 }, none)) ∧
    (rejectB a = false →
      ∃ t, a.text = some t ∧
        (handleRecord cfg s a).1.articles_skipped = s.articles_skipped ∧
        (handleRecord cfg s a).1.articles_saved = s.articles_saved + 1 ∧
        (handleRecord cfg s a).1.total_size_bytes
          = s.total_size_bytes + estimate_size t ∧
        (handleRecord cfg s a).1.files
          = s.files ++ [chooseFilename s.files (clean_article_title a.title)]) := by
  refine ⟨reject_iff a, fun h => handleRecord_reject cfg s a h, fun h => ?_⟩
  obtain ⟨t, ht, hh⟩ := handleRecord_accept cfg s a h
  exact ⟨t, ht, by rw [hh]; rfl, by rw [hh]; rfl, by rw [hh]; rfl, by rw [hh]; rfl⟩


/-- Witness for C5: a 300-character record (trimmed length at least 100,
untrimmed length below 500) is rejected with only the skip counter
changed, and a 600-character record is accepted. -/
theorem C5_filter_contract_witness :
    handleRecord ⟨none, some 3, "simple", "data"⟩ (initSt []) midArt
      = ({ initSt [] with articles_skipped := 1 }, none) ∧
    (handleRecord ⟨none, some 3, "simple", "data"⟩ (initSt []) (mkArt "A")).1.articles_saved = 1 := by
  constructor
  · exact (C5_filter_contract ⟨none, some 3, "simple", "data"⟩ (initSt []) midArt).2.1
      (by decide)
  · obtain ⟨t, ht, h1, h2, h3, h4⟩ :=
      (C5_filter_contract ⟨none, some 3, "simple", "data"⟩ (initSt []) (mkArt "A")).2.2
        (by decide)
    exact h2

/-- Claim C6: for every accepted record, the document written has the
record's title unchanged, content equal to the body text exactly, empty
category list, url equal to the record's url or empty string if absent,
and id equal to the record's id or empty string if absent. -/
theorem C6_transformer_contract (cfg : Config) (s : St) (a : Article)
    (t : String) (ht : a.text = some t) (hacc : rejectB a = false) :
    convert_to_rag_format a = some (theDoc a t) ∧
    (theDoc a t).title = a.title ∧
    (theDoc a t).content = t ∧
    (theDoc a t).metadata.categories = [] ∧
    (theDoc a t).metadata.url = a.url.getD "" ∧
    (theDoc a t).metadata.id = a.id.getD "" ∧
    (handleRecord cfg s a).1.written
      = s.written
          ++ [(chooseFilename s.files (clean_article_title a.title), theDoc a t)] := by
  obtain ⟨t', ht', hh⟩ := handleRecord_accept cfg s a hacc
  rw [ht] at ht'
  injection ht' with he
  subst he
  exact ⟨convert_eq a t ht, rfl, rfl, rfl, rfl, rfl, by rw [hh]; rfl⟩

/-- Witness for C6 at a concrete accepted record. -/
theorem C6_transformer_contract_witness :
    convert_to_rag_format (mkArt "A") = some (theDoc (mkArt "A") longText) ∧
    (theDoc (mkArt "A") longText).content = longText ∧
    (theDoc (mkArt "A") longText).metadata.categories = [] := by
  obtain ⟨h1, _, h3, h4, _⟩ :=
    C6_transformer_contract ⟨none, some 3, "simple", "data"⟩ (initSt [])
      (mkArt "A") longText rfl (by decide)
  exact ⟨h1, h3, h4⟩

theorem stopCond_size (T : ℚ) (cfg : Config) (hsz : cfg.size_mb = some T)
    (hct : cfg.article_count = none) (s : St) :
    stopCond cfg s
      = (decide (T ≠ 0) && decide ((s.total_size_bytes : ℚ) ≥ T * 1024 * 1024)) := by
  unfold stopCond
  rw [hsz, hct]
  simp

theorem progressCalc_size (cfg : Config) (T : ℚ) (hT : T ≠ 0)
    (hsz : cfg.size_mb = some T) : progressCalc cfg = none := by
  unfold progressCalc
  rw [hsz]
  simp [truthyQ, hT]

theorem writtenSizes_append (w : List (String × Doc)) (nm : String) (d : Doc) :
    writtenSizes (w ++ [(nm, d)]) = writtenSizes w ++ [estimate_size d.content] := by
  simp [writtenSizes]

theorem loop_size_budget (T : ℚ) (hT : 0 < T) (cfg : Config)
    (hsz : cfg.size_mb = some T) (hct : cfg.article_count = none) :
    ∀ (items : List Item) (s : St), noInterrupt items = true →
      s.total_size_bytes = (writtenSizes s.written).sum →
      (∀ i, i < s.written.length →
        ((((writtenSizes s.written).take i).sum : ℚ) < T * 1024 * 1024)) →
      (loop cfg items s).2 = none ∧
      (loop cfg items s).1.total_size_bytes
        = (writtenSizes (loop cfg items s).1.written).sum ∧
      (∀ i, i < (loop cfg items s).1.written.length →
        ((((writtenSizes (loop cfg items s).1.written).take i).sum : ℚ)
          < T * 1024 * 1024)) ∧
      (((loop cfg items s).1.total_size_bytes : ℚ) < T * 1024 * 1024 →
        (loop cfg items s).1.pulls = s.pulls + items.length) := by
  intro items
  induction items with
  | nil =>
    intro s _ h1 h2
    exact ⟨rfl, h1, h2, fun _ => by simp [loop_nil]⟩
  | cons i rest ih =>
    intro s hni h1 h2
    cases i with
    | interrupt => simp [noInterrupt] at hni
    | record a =>
      have hnir : noInterrupt rest = true := by
        simp only [noInterrupt, List.all_cons, Bool.and_eq_true] at hni
        exact hni.2
      by_cases hcross : ((s.total_size_bytes : ℚ) ≥ T * 1024 * 1024)
      · have hstop : stopCond cfg { s with pulls := s.pulls + 1 } = true := by
          rw [stopCond_size T cfg hsz hct]
          simp only [Bool.and_eq_true, decide_eq_true_eq]
          exact ⟨by positivity, hcross⟩
        rw [loop_cons_stop cfg a rest s hstop]
        refine ⟨rfl, h1, h2, fun hlt => absurd hcross (by simpa using not_le.mpr hlt)⟩
      · have hstop : stopCond cfg { s with pulls := s.pulls + 1 } = false := by
          rw [stopCond_size T cfg hsz hct]
          simp only [Bool.and_eq_false_iff, decide_eq_false_iff_not]
          right
          exact hcross
        by_cases hrj : rejectB a = true
        · rw [loop_cons_go cfg a rest s hstop _ (handleRecord_reject cfg _ a hrj)]
          obtain ⟨e1, e2, e3, e4⟩ := ih (skipSt { s with pulls := s.pulls + 1 }) hnir h1 h2
          exact ⟨e1, e2, e3, fun hlt => by rw [e4 hlt]; simp [skipSt]; omega⟩
        · rw [Bool.not_eq_true] at hrj
          obtain ⟨t, ht, hh⟩ :=
            handleRecord_accept cfg { s with pulls := s.pulls + 1 } a hrj
          rw [progressCalc_size cfg T (by positivity) hsz, ite_self] at hh
          rw [loop_cons_go cfg a rest s hstop _ hh]
          set s2 := saveSt { s with pulls := s.pulls + 1 } a (theDoc a t) t with hs2
          have hw2 : s2.written
              = s.written ++ [(chooseFilename s.files (clean_article_title a.title),
                  theDoc a t)] := rfl
          have htb2 : s2.total_size_bytes = s.total_size_bytes + estimate_size t := rfl
          have hlen : (writtenSizes s.written).length = s.written.length := by
            simp [writtenSizes]
          have hinv1 : s2.total_size_bytes = (writtenSizes s2.written).sum := by
            rw [htb2, hw2, writtenSizes_append, List.sum_append, h1]
            simp [theDoc]
          have hinv2 : ∀ i, i < s2.written.length →
              ((((writtenSizes s2.written).take i).sum : ℚ) < T * 1024 * 1024) := by
            intro i hi
            rw [hw2] at hi
            rw [hw2, writtenSizes_append]
            rw [List.length_append, List.length_singleton] at hi
            have hile : i ≤ s.written.length := by omega
            rw [List.take_append_eq_append_take]
            rw [hlen]
            rw [Nat.sub_eq_zero_of_le hile, List.take_zero, List.append_nil]
            rcases Nat.lt_or_ge i s.written.length with hilt | hieq
            · exact h2 i hilt
            · have : i = s.written.length := by omega
              subst this
              rw [← hlen, List.take_length]
              rw [← h1]
              exact lt_of_not_ge hcross
          obtain ⟨e1, e2, e3, e4⟩ := ih s2 hnir hinv1 hinv2
          refine ⟨e1, e2, e3, fun hlt => ?_⟩
          rw [e4 hlt]
          have : s2.pulls = s.pulls + 1 := rfl
          rw [this]
          simp [List.length_cons]
          omega

/-- Claim C3: for every run with a positive byte target of T megabytes and
an interrupt-free source, the run completes without error; the byte
accumulator equals the sum over written documents of the byte size of the
content field (that is exactly what each write adds); every document is
written only while the accumulated bytes are still below T * 2^20, so no
document is written after the first one whose write reaches the target;
and if the target is never reached the run consumes the entire source. -/
theorem C3_byte_budget_exactness (T : ℚ) (lang out : String)
    (pre : List String) (src : List Item) (hT : 0 < T)
    (hni : noInterrupt src = true) :
    (fetch_wikipedia_dataset ⟨some T, none, lang, out⟩ pre src).err = none ∧
    (fetch_wikipedia_dataset ⟨some T, none, lang, out⟩ pre src).st.total_size_bytes
      = (writtenSizes
          (fetch_wikipedia_dataset ⟨some T, none, lang, out⟩ pre src).st.written).sum ∧
    (∀ i, i < (fetch_wikipedia_dataset ⟨some T, none, lang, out⟩ pre src).st.written.length →
      ((((writtenSizes
          (fetch_wikipedia_dataset ⟨some T, none, lang, out⟩ pre src).st.written).take i).sum : ℚ)
        < T * 1024 * 1024)) ∧
    (((fetch_wikipedia_dataset ⟨some T, none, lang, out⟩ pre src).st.total_size_bytes : ℚ)
        < T * 1024 * 1024 →
      (fetch_wikipedia_dataset ⟨some T, none, lang, out⟩ pre src).st.pulls = src.length) := by
  have hmain := loop_size_budget T hT ⟨some T, none, lang, out⟩ rfl rfl src (initSt pre)
    hni rfl (fun i hi => by simp [initSt] at hi)
  rw [fetch_one_target ⟨some T, none, lang, out⟩ pre src (by rfl) (by rfl)]
  cases hlp : loop ⟨some T, none, lang, out⟩ src (initSt pre) with
  | mk s e =>
    rw [hlp] at hmain
    obtain ⟨he, h1, h2, h3⟩ := hmain
    simp only at he h1 h2 h3
    subst he
    refine ⟨rfl, h1, h2, fun hlt => ?_⟩
    have := h3 hlt
    simpa [initSt] using this

/-- Witness for C3: target 1 MB, one admissible 600-byte record. -/
theorem C3_byte_budget_exactness_witness :
    (fetch_wikipedia_dataset ⟨some 1, none, "simple", "data"⟩ []
        [Item.record (mkArt "A")]).err = none ∧
    (fetch_wikipedia_dataset ⟨some 1, none, "simple", "data"⟩ []
        [Item.record (mkArt "A")]).st.total_size_bytes
      = (writtenSizes (fetch_wikipedia_dataset ⟨some 1, none, "simple", "data"⟩ []
          [Item.record (mkArt "A")]).st.written).sum := by
  have h := C3_byte_budget_exactness 1 "simple" "data" [] [Item.record (mkArt "A")]
    (by norm_num) (by decide)
  exact ⟨h.1, h.2.1⟩

theorem loop_degenerate (cfg : Config) (e : RunErr)
    (hstop : ∀ s, stopCond cfg s = false)
    (hpc : progressCalc cfg = some e) :
    ∀ (items : List Item) (s : St), noInterrupt items = true →
      s.articles_saved < 10 →
      ((loop cfg items s).2 = none ∧
        (loop cfg items s).1.pulls = s.pulls + items.length ∧
        (loop cfg items s).1.articles_saved < 10)
      ∨ ((loop cfg items s).2 = some e ∧
        (loop cfg items s).1.articles_saved = 10) := by
  intro items
  induction items with
  | nil =>
    intro s _ hsv
    exact Or.inl ⟨rfl, by simp [loop_nil], hsv⟩
  | cons i rest ih =>
    intro s hni hsv
    cases i with
    | interrupt => simp [noInterrupt] at hni
    | record a =>
      have hnir : noInterrupt rest = true := by
        simp only [noInterrupt, List.all_cons, Bool.and_eq_true] at hni
        exact hni.2
      by_cases hrj : rejectB a = true
      · rw [loop_cons_go cfg a rest s (hstop _) _ (handleRecord_reject cfg _ a hrj)]
        rcases ih (skipSt { s with pulls := s.pulls + 1 }) hnir hsv with ⟨e1, e2, e3⟩ | h
        · refine Or.inl ⟨e1, ?_, e3⟩
          rw [e2]
          simp [skipSt]
          omega
        · exact Or.inr h
      · rw [Bool.not_eq_true] at hrj
        obtain ⟨t, ht, hh⟩ :=
          handleRecord_accept cfg { s with pulls := s.pulls + 1 } a hrj
        by_cases hmod : ((({ s with pulls := s.pulls + 1 } : St).articles_saved + 1) % 10 == 0) = true
        · rw [if_pos hmod, hpc] at hh
          rw [loop_cons_err cfg a rest s (hstop _) _ e hh]
          refine Or.inr ⟨rfl, ?_⟩
          have h10 : s.articles_saved + 1 = 10 := by
            simp only [beq_iff_eq] at hmod
            omega
          show s.articles_saved + 1 = 10
          exact h10
        · rw [if_neg hmod] at hh
          rw [loop_cons_go cfg a rest s (hstop _) _ hh]
          have hsv2 : s.articles_saved + 1 < 10 := by
            simp only [beq_iff_eq] at hmod
            omega
          rcases ih (saveSt { s with pulls := s.pulls + 1 } a (theDoc a t) t)
              hnir hsv2 with ⟨e1, e2, e3⟩ | h
          · refine Or.inl ⟨e1, ?_, e3⟩
            rw [e2]
            show s.pulls + 1 + rest.length = s.pulls + (rest.length + 1)
            omega
          · exact Or.inr h

/-- Claim C10 counterexample: with size_mb = 0.0, article_count unset and
twelve admissible records, the run does not continue until the source is
exhausted: at the tenth save the progress report divides by the unset
count target and raises TypeError, aborting the run after ten pulls. -/
theorem C10_counterexample :
    (fetch_wikipedia_dataset ⟨some 0, none, "simple", "data"⟩ [] src12).err
      = some RunErr.typeErr ∧
    (fetch_wikipedia_dataset ⟨some 0, none, "simple", "data"⟩ [] src12).st.pulls = 10 ∧
    src12.length = 12 := by
  refine ⟨?_, ?_, ?_⟩ <;> decide

/-- Claim C10 (amended): a configuration with size_mb = 0.0 (or
article_count = 0) and the other target unset passes the both/neither
validation (the directory is created), and the truthiness-based stop
checks never fire; the run then continues until the source is exhausted
provided fewer than ten documents get saved - at a tenth save the
progress report computes percent-of-target from the unset count target
and raises (TypeError when article_count is None, ZeroDivisionError when
it is 0), aborting the run. -/
theorem C10_degenerate_targets (lang out : String) (pre : List String)
    (src : List Item) (hni : noInterrupt src = true) :
    ((fetch_wikipedia_dataset ⟨some 0, none, lang, out⟩ pre src).mkdirDone = true) ∧
    ((fetch_wikipedia_dataset ⟨none, some 0, lang, out⟩ pre src).mkdirDone = true) ∧
    (∀ s, stopCond ⟨some 0, none, lang, out⟩ s = false) ∧
    (∀ s, stopCond ⟨none, some 0, lang, out⟩ s = false) ∧
    (((fetch_wikipedia_dataset ⟨some 0, none, lang, out⟩ pre src).err = none ∧
        (fetch_wikipedia_dataset ⟨some 0, none, lang, out⟩ pre src).st.pulls
          = src.length)
      ∨ ((fetch_wikipedia_dataset ⟨some 0, none, lang, out⟩ pre src).err
          = some RunErr.typeErr ∧
        (fetch_wikipedia_dataset ⟨some 0, none, lang, out⟩ pre src).st.articles_saved
          = 10)) ∧
    (((fetch_wikipedia_dataset ⟨none, some 0, lang, out⟩ pre src).err = none ∧
        (fetch_wikipedia_dataset ⟨none, some 0, lang, out⟩ pre src).st.pulls
          = src.length)
      ∨ ((fetch_wikipedia_dataset ⟨none, some 0, lang, out⟩ pre src).err
          = some RunErr.zeroDivErr ∧
        (fetch_wikipedia_dataset ⟨none, some 0, lang, out⟩ pre src).st.articles_saved
          = 10)) := by
  have hstopA : ∀ s, stopCond ⟨some 0, none, lang, out⟩ s = false := by
    intro s
    simp [stopCond]
  have hstopB : ∀ s, stopCond ⟨none, some 0, lang, out⟩ s = false := by
    intro s
    simp [stopCond]
  have hA := loop_degenerate ⟨some 0, none, lang, out⟩ RunErr.typeErr hstopA rfl
    src (initSt pre) hni (by show (0 : Nat) < 10; omega)
  have hB := loop_degenerate ⟨none, some 0, lang, out⟩ RunErr.zeroDivErr hstopB rfl
    src (initSt pre) hni (by show (0 : Nat) < 10; omega)
  rw [fetch_one_target ⟨some 0, none, lang, out⟩ pre src (by rfl) (by rfl),
    fetch_one_target ⟨none, some 0, lang, out⟩ pre src (by rfl) (by rfl)]
  cases hlpA : loop ⟨some 0, none, lang, out⟩ src (initSt pre) with
  | mk sA eA =>
    cases hlpB : loop ⟨none, some 0, lang, out⟩ src (initSt pre) with
    | mk sB eB =>
      rw [hlpA] at hA
      rw [hlpB] at hB
      simp only at hA hB
      refine ⟨?_, ?_, hstopA, hstopB, ?_, ?_⟩
      · cases eA <;> rfl
      · cases eB <;> rfl
      · rcases hA with ⟨he, hp, _⟩ | ⟨he, hs⟩
        · subst he
          exact Or.inl ⟨rfl, by rw [hp]; simp [initSt]⟩
        · subst he
          exact Or.inr ⟨rfl, hs⟩
      · rcases hB with ⟨he, hp, _⟩ | ⟨he, hs⟩
        · subst he
          exact Or.inl ⟨rfl, by rw [hp]; simp [initSt]⟩
        · subst he
          exact Or.inr ⟨rfl, hs⟩

/-- Witness for the amended C10 at a concrete source. -/
theorem C10_degenerate_targets_witness :
    (fetch_wikipedia_dataset ⟨some 0, none, "simple", "data"⟩ [] src12).mkdirDone
      = true ∧
    (fetch_wikipedia_dataset ⟨none, some 0, "simple", "data"⟩ [] src12).mkdirDone
      = true := by
  have h := C10_degenerate_targets "simple" "data" [] src12 (by decide)
  exact ⟨h.1, h.2.1⟩

theorem nodup_append_singleton {l : List String} {x : String}
    (h : l.Nodup) (hx : x ∉ l) : (l ++ [x]).Nodup := by
  rw [List.nodup_append]
  refine ⟨h, List.nodup_singleton x, ?_⟩
  intro y hy hmem
  simp only [List.mem_singleton] at hmem
  subst hmem
  exact hx hy

theorem suffixName_ne_plain (base : String) (k : Nat) :
    suffixName base k ≠ base ++ ".json" := by
  intro h
  have hd := congrArg String.length h
  simp only [suffixName, String.length_append] at hd
  have h1 : ("_" : String).length = 1 := rfl
  have h2 : ((".json" : String)).length = 5 := rfl
  rw [h1, h2] at hd
  omega

theorem loop_files_nodup (cfg : Config) :
    ∀ (items : List Item) (s : St), s.files.Nodup →
      (loop cfg items s).1.files.Nodup := by
  intro items
  induction items with
  | nil => intro s h; exact h
  | cons i rest ih =>
    intro s h
    cases i with
    | interrupt => rw [loop_cons_interrupt]; exact h
    | record a =>
      by_cases hstop : stopCond cfg { s with pulls := s.pulls + 1 } = true
      · rw [loop_cons_stop cfg a rest s hstop]
        exact h
      · rw [Bool.not_eq_true] at hstop
        by_cases hrj : rejectB a = true
        · rw [loop_cons_go cfg a rest s hstop _ (handleRecord_reject cfg _ a hrj)]
          exact ih _ h
        · rw [Bool.not_eq_true] at hrj
          obtain ⟨t, ht, hh⟩ :=
            handleRecord_accept cfg { s with pulls := s.pulls + 1 } a hrj
          have hs2 : (saveSt { s with pulls := s.pulls + 1 } a (theDoc a t) t).files.Nodup := by
            show (s.files ++ [chooseFilename s.files (clean_article_title a.title)]).Nodup
            exact nodup_append_singleton h
              (chooseFilename_spec s.files (clean_article_title a.title)).1
          cases hcase : (if (({ s with pulls := s.pulls + 1 } : St).articles_saved + 1) % 10 == 0
              then progressCalc cfg else none) with
          | none =>
            rw [loop_cons_go cfg a rest s hstop _ (by rw [hh, hcase])]
            exact ih _ hs2
          | some e =>
            rw [loop_cons_err cfg a rest s hstop _ e (by rw [hh, hcase])]
            exact hs2

theorem fetch_files_nodup (cfg : Config) (pre : List String) (src : List Item)
    (h : pre.Nodup) : (fetch_wikipedia_dataset cfg pre src).st.files.Nodup := by
  unfold fetch_wikipedia_dataset
  split
  · exact h
  · split
    · exact h
    · cases hlp : loop cfg src (initSt pre) with
      | mk s e =>
        have hn := loop_files_nodup cfg src (initSt pre) h
        rw [hlp] at hn
        cases e
        · exact hn
        · exact hn

/-- Claim C1: for every document written the filename is derived from the
title by replacing each occurrence of the characters / \ : * ? " < > |
with an underscore (all other characters preserved in position) plus the
extension .json; if that name already exists in the output directory the
writer uses the first positive integer suffix k (starting at 1) for which
no file exists; a write never targets an existing name, so no file is
overwritten and - given distinct pre-existing names - all names in the
directory stay distinct; in particular a second document whose title maps
to the same base gets the suffix 1. -/
theorem C1_collision_safe_naming (files : List String) (title : String) :
    (clean_article_title title).data
      = title.data.map (fun c => if c ∈ unsafe_chars then '_' else c) ∧
    chooseFilename files (clean_article_title title) ∉ files ∧
    (clean_article_title title ++ ".json" ∉ files →
      chooseFilename files (clean_article_title title)
        = clean_article_title title ++ ".json") ∧
    (clean_article_title title ++ ".json" ∈ files →
      ∃ k, 1 ≤ k ∧
        chooseFilename files (clean_article_title title)
          = suffixName (clean_article_title title) k ∧
        suffixName (clean_article_title title) k ∉ files ∧
        ∀ j, 1 ≤ j → j < k → suffixName (clean_article_title title) j ∈ files) ∧
    (clean_article_title title ++ ".json" ∉ files →
      suffixName (clean_article_title title) 1 ∉ files →
      chooseFilename (files ++ [clean_article_title title ++ ".json"])
          (clean_article_title title)
        = suffixName (clean_article_title title) 1) ∧
    (∀ (cfg : Config) (src : List Item), files.Nodup →
      (fetch_wikipedia_dataset cfg files src).st.files.Nodup) := by
  obtain ⟨hfresh, hplain, hsuff⟩ := chooseFilename_spec files (clean_article_title title)
  refine ⟨clean_article_title_map title, hfresh, hplain, hsuff, ?_, ?_⟩
  · intro h1 h2
    obtain ⟨hfresh2, hplain2, hsuff2⟩ :=
      chooseFilename_spec (files ++ [clean_article_title title ++ ".json"])
        (clean_article_title title)
    have hmem : clean_article_title title ++ ".json"
        ∈ files ++ [clean_article_title title ++ ".json"] := by simp
    obtain ⟨k, hk1, hkeq, hknot, hkmin⟩ := hsuff2 hmem
    have hk : k = 1 := by
      by_contra hne
      have hin : suffixName (clean_article_title title) 1
          ∈ files ++ [clean_article_title title ++ ".json"] :=
        hkmin 1 le_rfl (by omega)
      rw [List.mem_append] at hin
      rcases hin with hin | hin
      · exact h2 hin
      · simp only [List.mem_singleton] at hin
        exact suffixName_ne_plain _ 1 hin
    rw [hk] at hkeq
    exact hkeq
  · intro cfg src hnd
    exact fetch_files_nodup cfg files src hnd

/-- Witness for C1: the spec scenario: title A/B cleans to A_B; in a
directory already holding A_B.json the writer picks A_B_1.json (fresh),
and writing two same-base documents into an empty directory gives the
second the suffix 1; a run over a distinct-name directory keeps all
names distinct. -/
theorem C1_collision_safe_naming_witness :
    chooseFilename ["A_B.json"] (clean_article_title "A/B")
      ∉ (["A_B.json"] : List String) ∧
    chooseFilename ([] ++ [clean_article_title "A/B" ++ ".json"])
        (clean_article_title "A/B")
      = suffixName (clean_article_title "A/B") 1 ∧
    (fetch_wikipedia_dataset ⟨none, some 2, "simple", "data"⟩ ["A_B.json"]
      [Item.record (mkArt "A/B")]).st.files.Nodup := by
  have h := C1_collision_safe_naming ["A_B.json"] "A/B"
  have h0 := C1_collision_safe_naming [] "A/B"
  exact ⟨h.2.1, h0.2.2.2.2.1 (by decide) (by decide),
    h.2.2.2.2.2 ⟨none, some 2, "simple", "data"⟩ [Item.record (mkArt "A/B")]
      (by decide)⟩

end WikiFetch

